import Mathlib

/-!
Verification of the plan-to-span converter of the opencensus-service postgres
receiver (`exporter/exporterwrapper/exporterwrapper.go`, package
`postgresreceiver` section) and of `PushOcProtoSpansToOCTraceExporter`.

The Go code parses a loosely typed JSON document (an execution plan produced
by PostgreSQL) into a tree of trace spans.  The shallow embedding models:

* `interface{}` values after `json.Unmarshal` as `JValue` (JSON numbers all
  come back as `float64`; floats are modelled exactly as rationals, which is
  faithful for the arithmetic the receiver performs on them);
* Go's `time.Time` as an integer count of nanoseconds since the epoch
  (`time.Unix(sec, nsec)` is `sec * 1e9 + nsec`), and `float64`-to-`int64`
  conversions as truncation toward zero (`Int.tdiv`);
* the process-wide `math/rand` source as a stream `ℕ → ℕ` of draws consumed
  at increasing indices (`rand.Uint64` values; `putUint64LE` lays a draw out
  in little-endian bytes exactly as `binary.LittleEndian.PutUint64` does);
* a panicking type assertion (`v.(string)` on a non-string, indexing an empty
  slice, …) as `none`: the Go functions have no side effects before any
  panic, so a run is fully described by an `Option` result;
* the recursion of `parseChildPlan` by a fuel parameter; `planSize` of the
  traversed value is always sufficient fuel (`parseChildPlanF_fuel_irrel`
  certifies the result does not change with more fuel), and the fueled
  definition keeps everything kernel-computable.
-/

namespace PgReceiver

mutual

/-- Dynamic JSON value: the embedding of a Go `interface{}` produced by
`json.Unmarshal`. Objects are association lists; a `nil` interface (absent map
key or JSON null) is `JValue.null`. The array and object payloads are their
own inductive types (`JList`, `JFields`) rather than `List`, so that plain
mutual structural recursion over documents stays executable. -/
inductive JValue where
  | null
  | str (s : String)
  | num (q : ℚ)
  | arr (xs : JList)
  | obj (fields : JFields)

/-- A JSON array: the payload of a Go `[]interface{}`. -/
inductive JList where
  | nil
  | cons (v : JValue) (rest : JList)

/-- A JSON object: the payload of a Go `map[string]interface{}`, in insertion
order. -/
inductive JFields where
  | nil
  | cons (k : String) (v : JValue) (rest : JFields)

end

mutual

/-- Structural size of a document, used as recursion fuel for the parser. -/
def planSize : JValue → ℕ
  | JValue.null => 1
  | JValue.str _ => 1
  | JValue.num _ => 1
  | JValue.arr xs => 1 + listSize xs
  | JValue.obj fs => 1 + fieldsSize fs

/-- Structural size of a JSON array. -/
def listSize : JList → ℕ
  | JList.nil => 1
  | JList.cons v rest => 1 + planSize v + listSize rest

/-- Structural size of a JSON object. -/
def fieldsSize : JFields → ℕ
  | JFields.nil => 1
  | JFields.cons _ v rest => 1 + planSize v + fieldsSize rest

end

/-- Build a `JList` from a Lean list (convenience for concrete documents). -/
def JList.ofList : List JValue → JList
  | [] => JList.nil
  | v :: rest => JList.cons v (JList.ofList rest)

/-- Build a `JFields` from a Lean association list (convenience for concrete
documents). -/
def JFields.ofList : List (String × JValue) → JFields
  | [] => JFields.nil
  | (k, v) :: rest => JFields.cons k v (JFields.ofList rest)

/-- Go map indexing `m["key"]` on a `map[string]interface{}`: yields the zero
value `nil` when the key is absent. -/
def lookupField : JFields → String → JValue
  | JFields.nil, _ => JValue.null
  | JFields.cons k v rest, key => if k = key then v else lookupField rest key

/-- Go type assertion `v.(string)`: panics (`none`) unless the value is a string. -/
def asString : JValue → Option String
  | JValue.str s => some s
  | _ => none

/-- Go type assertion `v.(float64)`: panics (`none`) unless the value is a number. -/
def asNum : JValue → Option ℚ
  | JValue.num q => some q
  | _ => none

/-- Attribute values produced by the receiver: `tracepb.AttributeValue` is only
ever built through `stringToAttributeValue` and `int64ToAttributeValue`, so the
embedding needs exactly the string and integer cases. -/
inductive AttrValue where
  | str (s : String)
  | int (n : ℤ)
  deriving DecidableEq

/-- Model of Go `stringToAttributeValue`. -/
def stringToAttributeValue (val : String) : AttrValue := AttrValue.str val

/-- Model of Go `int64ToAttributeValue`. -/
def int64ToAttributeValue (val : ℤ) : AttrValue := AttrValue.int val

/-- Model of the fields of `tracepb.Span` that the receiver populates.
Identifiers are byte lists; timestamps are nanoseconds since the epoch;
the attribute map is kept in insertion order. -/
structure Span where
  traceId : List ℕ
  spanId : List ℕ
  parentSpanId : Option (List ℕ)
  name : String
  startTime : ℤ
  endTime : ℤ
  attributes : List (String × AttrValue)
  deriving DecidableEq

/-- The process-wide pseudo-random source: draw `i` of `rand.Uint64()`. -/
def RandStream : Type := ℕ → ℕ

/-- Little-endian byte layout of a 64-bit value, as
`binary.LittleEndian.PutUint64` produces it (byte `k` is `n / 2^(8k) % 256`;
only `n % 2^64` matters). -/
def putUint64LE (n : ℕ) : List ℕ :=
  (List.range 8).map fun k => n / 2 ^ (8 * k) % 256

/-- Model of Go `generateSpanId`: one `rand.Uint64` draw laid out in 8 bytes,
together with the next unused draw index. -/
def generateSpanId (r : RandStream) (i : ℕ) : List ℕ × ℕ :=
  (putUint64LE (r i), i + 1)

/-- Model of Go `generateTraceId`: two consecutive `rand.Uint64` draws laid out
little-endian in bytes 0–7 and 8–15. -/
def generateTraceId (r : RandStream) (i : ℕ) : List ℕ × ℕ :=
  (putUint64LE (r i) ++ putUint64LE (r (i + 1)), i + 2)

/-- Truncation toward zero of a rational, as Go's `int64(f)` conversion of a
`float64` behaves. -/
def int64OfFloat (q : ℚ) : ℤ := Int.tdiv q.num (q.den : ℤ)

/-- Model of Go `timestampToTime`: `sec := int64(t)`, `nsec := int64((t - sec) * 1e9)`,
`time.Unix(sec, nsec)` = `sec * 1e9 + nsec` nanoseconds. The fractional part is
computed on the numerator and denominator so that the kernel can evaluate it. -/
def timestampToTime (t : ℚ) : ℤ :=
  let sec : ℤ := Int.tdiv t.num (t.den : ℤ)
  let nsec : ℤ := Int.tdiv ((t.num - sec * (t.den : ℤ)) * 1000000000) (t.den : ℤ)
  sec * 1000000000 + nsec

/-- Exact rational addition written on numerators and denominators, used for
`start_timestamp + duration`; `ratAdd_eq_add` proves it is ordinary addition
(the formulation through `mkRat` keeps it kernel-computable). -/
def ratAdd (a b : ℚ) : ℚ := mkRat (a.num * b.den + b.num * a.den) (a.den * b.den)

/-- Model of `time.Duration(ms * float64(time.Millisecond))`: the millisecond
offset times `1e6`, truncated toward zero to whole nanoseconds. -/
def msDuration (ms : ℚ) : ℤ := Int.tdiv (ms.num * 1000000) (ms.den : ℤ)

/-- Optional node attribute of `parseChildPlan` (lines 320–326): emitted only
when the field is present; a present field of a non-string type panics. -/
def optionalStringAttr (key : String) : JValue → Option (List (String × AttrValue))
  | JValue.null => some []
  | JValue.str s => some [(key, stringToAttributeValue s)]
  | _ => none

/-- Attributes attached to one plan-node span, exactly as `parseChildPlan`
builds them (lines 316–327): the required `Rows Fetched` integer, then
`Operation` and `Table Name` when present. -/
def nodeAttributes (plan_map : JFields) : Option (List (String × AttrValue)) :=
  (asNum (lookupField plan_map "Actual Rows")).bind fun rows =>
  (optionalStringAttr "Operation" (lookupField plan_map "Operation")).bind fun op_attrs =>
  (optionalStringAttr "Table Name" (lookupField plan_map "Relation Name")).bind fun table_attrs =>
  some (("Rows Fetched", int64ToAttributeValue (int64OfFloat rows)) :: (op_attrs ++ table_attrs))

/-- Document-level attribute extraction of `parseExecutionPlan` (lines 219–226):
`query`, `username`, `session_username`, `connection_id`, `database_name`, all
required (a missing or mistyped field panics). -/
def documentAttributes (plan : JFields) : Option (List (String × AttrValue)) :=
  (asString (lookupField plan "Query Text")).bind fun query_text =>
  (asString (lookupField plan "username")).bind fun username =>
  (asString (lookupField plan "session_username")).bind fun session_username =>
  (asNum (lookupField plan "connection_id")).bind fun connection_id =>
  (asString (lookupField plan "database_name")).bind fun database_name =>
  some [("query", stringToAttributeValue query_text),
    ("username", stringToAttributeValue username),
    ("session_username", stringToAttributeValue session_username),
    ("connection_id", int64ToAttributeValue (int64OfFloat connection_id)),
    ("database_name", stringToAttributeValue database_name)]

/-- The span record `parseChildPlan` assembles for one plan node (lines
285–329): trace id, fresh span id, the caller's span id as parent, the node
type as name, the reconciled start, the candidate end bumped by one nanosecond
when it coincides with the start, and the node attributes. -/
def nodeSpanOf (trace_id span_id parent_span_id : List ℕ) (node_type : String)
    (span_start_time cand_end : ℤ) (attrs : List (String × AttrValue)) : Span :=
  { traceId := trace_id, spanId := span_id,
    parentSpanId := some parent_span_id,
    name := node_type,
    startTime := span_start_time,
    endTime := if cand_end = span_start_time then span_start_time + 1 else cand_end,
    attributes := attrs }

mutual

/-- Model of Go `parseChildPlan` (lines 280–331). Arguments after the fuel and
the random stream mirror the Go signature: the node's dynamic value, the
trace's start time, the trace id and the parent's span id; `i` is the index of
the next unused random draw. The result is the node's reconciled start time,
the spans of the subtree in emission order, and the next draw index. `none` is
a panic (missing field, wrong dynamic type, or fuel exhaustion, which never
happens from fuel `planSize plan` on, by `parseChildPlanF_fuel_irrel`). -/
def parseChildPlanF : ℕ → RandStream → JValue → ℤ → List ℕ → List ℕ → ℕ →
    Option (ℤ × List Span × ℕ)
  | 0, _, _, _, _, _, _ => none
  | Nat.succ fuel, r, plan, trace_start_time, trace_id, parent_span_id, i =>
    match plan with
    | JValue.obj plan_map =>
      (asString (lookupField plan_map "Node Type")).bind fun node_type =>
      (asNum (lookupField plan_map "Actual Startup Time")).bind fun start_offset_ms =>
      (childPlansStepF fuel r (lookupField plan_map "Plans") trace_start_time trace_id
        (generateSpanId r i).1 (trace_start_time + msDuration start_offset_ms) (i + 1)).bind
        fun res =>
      (asNum (lookupField plan_map "Actual Total Time")).bind fun end_offset_ms =>
      (nodeAttributes plan_map).bind fun attrs =>
      some (res.1,
        res.2.1 ++ [nodeSpanOf trace_id (generateSpanId r i).1 parent_span_id node_type
          res.1 (trace_start_time + msDuration end_offset_ms) attrs],
        res.2.2)
    | _ => none

/-- The dispatch of `parseChildPlan` on the `Plans` field (line 298): absent or
null means a leaf (keep the candidate start), a `[]interface{}` value runs the
child loop, and any other dynamic type panics in `plans.([]interface{})`. -/
def childPlansStepF : ℕ → RandStream → JValue → ℤ → List ℕ → List ℕ → ℤ → ℕ →
    Option (ℤ × List Span × ℕ)
  | 0, _, _, _, _, _, _, _ => none
  | Nat.succ fuel, r, plans, trace_start_time, trace_id, span_id, span_start_time, i =>
    match plans with
    | JValue.null => some (span_start_time, ([] : List Span), i)
    | JValue.arr child_plans =>
      parseChildPlanListF fuel r child_plans trace_start_time trace_id span_id
        span_start_time i
    | _ => none

/-- The `for _, child_plan := range plans` loop of `parseChildPlan` (lines
298–306): recursively converts each child, replaces the accumulated start time
whenever a child started earlier (`span_start_time.After(child)`), and
concatenates the children's span lists in order. -/
def parseChildPlanListF : ℕ → RandStream → JList → ℤ → List ℕ → List ℕ → ℤ → ℕ →
    Option (ℤ × List Span × ℕ)
  | 0, _, _, _, _, _, _, _ => none
  | Nat.succ fuel, r, child_plans, trace_start_time, trace_id, span_id, span_start_time, i =>
    match child_plans with
    | JList.nil => some (span_start_time, [], i)
    | JList.cons child_plan rest =>
      (parseChildPlanF fuel r child_plan trace_start_time trace_id span_id i).bind fun cres =>
      (parseChildPlanListF fuel r rest trace_start_time trace_id span_id
        (if cres.1 < span_start_time then cres.1 else span_start_time) cres.2.2).bind fun rres =>
      some (rres.1, cres.2.1 ++ rres.2.1, rres.2.2)

end

mutual

/-- Specification-level reconciled start time (spec §4.3): the candidate own
start `T0 + actualStartupTimeMs`, lowered to the minimum over every child's
reconciled start, computed bottom-up. Reads exactly the fields the timing rule
depends on, with the parser's failure behavior and fuel discipline. -/
def reconciledStartF : ℕ → ℤ → JValue → Option ℤ
  | 0, _, _ => none
  | Nat.succ fuel, trace_start_time, plan =>
    match plan with
    | JValue.obj plan_map =>
      (asNum (lookupField plan_map "Actual Startup Time")).bind fun start_offset_ms =>
      reconciledStepF fuel trace_start_time (lookupField plan_map "Plans")
        (trace_start_time + msDuration start_offset_ms)
    | _ => none

/-- Dispatch of `reconciledStartF` on the `Plans` field. -/
def reconciledStepF : ℕ → ℤ → JValue → ℤ → Option ℤ
  | 0, _, _, _ => none
  | Nat.succ fuel, trace_start_time, plans, cand =>
    match plans with
    | JValue.null => some cand
    | JValue.arr child_plans => reconciledStartListF fuel trace_start_time child_plans cand
    | _ => none

/-- Fold of `min` over the children's reconciled starts. -/
def reconciledStartListF : ℕ → ℤ → JList → ℤ → Option ℤ
  | 0, _, _, _ => none
  | Nat.succ fuel, trace_start_time, child_plans, acc =>
    match child_plans with
    | JList.nil => some acc
    | JList.cons child_plan rest =>
      (reconciledStartF fuel trace_start_time child_plan).bind fun cst =>
      reconciledStartListF fuel trace_start_time rest (min acc cst)

end

mutual

/-- Specification-level post-order enumeration of the node names of a plan
tree: every child subtree's names in order, then the node's own name. The
emitted spans of a document are expected to carry exactly these names in this
order, which pins the output order to a strict post-order traversal. -/
def postNamesF : ℕ → JValue → Option (List String)
  | 0, _ => none
  | Nat.succ fuel, plan =>
    match plan with
    | JValue.obj plan_map =>
      (asString (lookupField plan_map "Node Type")).bind fun node_type =>
      (postNamesStepF fuel (lookupField plan_map "Plans")).bind fun ns =>
      some (ns ++ [node_type])
    | _ => none

/-- Dispatch of `postNamesF` on the `Plans` field: a leaf contributes no
descendant names. -/
def postNamesStepF : ℕ → JValue → Option (List String)
  | 0, _ => none
  | Nat.succ fuel, plans =>
    match plans with
    | JValue.null => some ([] : List String)
    | JValue.arr child_plans => postNamesListF fuel child_plans
    | _ => none

/-- Concatenation of the children's post-order name lists. -/
def postNamesListF : ℕ → JList → Option (List String)
  | 0, _ => none
  | Nat.succ fuel, child_plans =>
    match child_plans with
    | JList.nil => some ([] : List String)
    | JList.cons child_plan rest =>
      (postNamesF fuel child_plan).bind fun ns =>
      (postNamesListF fuel rest).bind fun ns2 => some (ns ++ ns2)

end

mutual

/-- Structural predicate: every `Actual Startup Time` field anywhere in the
value that holds a number holds a nonnegative one. Documents produced by the
instrumented database always satisfy it; it is the side condition under which
the synthesized root span starts no later than any node span. -/
def startupsNonneg : JValue → Bool
  | JValue.arr xs => startupsNonnegList xs
  | JValue.obj fs => startupsNonnegFields fs
  | _ => true

/-- List part of `startupsNonneg`. -/
def startupsNonnegList : JList → Bool
  | JList.nil => true
  | JList.cons v rest => startupsNonneg v && startupsNonnegList rest

/-- Object part of `startupsNonneg`: checks the field value recursively and, on
an `Actual Startup Time` key holding a number, its nonnegativity. -/
def startupsNonnegFields : JFields → Bool
  | JFields.nil => true
  | JFields.cons k v rest =>
    (if k = "Actual Startup Time" then
      match v with
      | JValue.num q => decide (0 ≤ q)
      | _ => true
    else true) && startupsNonneg v && startupsNonnegFields rest

end

/-- The synthesized root span of `parseExecutionPlan` (lines 228–236): fixed
name `CloudSQLQuery`, no parent, the document-level attributes, covering
`[start timestamp, start timestamp + duration]`. -/
def rootSpanOf (r : RandStream) (start_timestamp duration : ℚ)
    (attrs : List (String × AttrValue)) : Span :=
  { traceId := (generateTraceId r 0).1, spanId := (generateSpanId r 2).1,
    parentSpanId := none,
    name := "CloudSQLQuery",
    startTime := timestampToTime start_timestamp,
    endTime := timestampToTime (ratAdd start_timestamp duration),
    attributes := attrs }

/-- Model of Go `parseExecutionPlan` (lines 208–241), additionally returning the
next unused random-draw index (the Go function's only use of the global
`math/rand` state; exposing it lets theorems speak about the draws one
document consumes). Draw indices: 0 and 1 for the trace id, 2 for the root
span id, 3 onwards for the plan-node span ids. -/
def parseExecutionPlanT (r : RandStream) (message : JValue) : Option (List Span × ℕ) :=
  match message with
  | JValue.obj plan =>
    (asNum (lookupField plan "start timestamp")).bind fun start_timestamp =>
    (asNum (lookupField plan "duration")).bind fun duration =>
    (documentAttributes plan).bind fun attrs =>
    (parseChildPlanF (planSize (lookupField plan "Plan")) r (lookupField plan "Plan")
        (timestampToTime start_timestamp) (generateTraceId r 0).1 (generateSpanId r 2).1 3).bind
      fun res =>
    some (res.2.1 ++ [rootSpanOf r start_timestamp duration attrs], res.2.2)
  | _ => none

/-- Model of Go `parseExecutionPlan` proper: the emitted span list alone. -/
def parseExecutionPlan (r : RandStream) (message : JValue) : Option (List Span) :=
  (parseExecutionPlanT r message).map Prod.fst

/-- Model of `PushOcProtoSpansToOCTraceExporter` (lines 82–101). The
proto-to-SpanData translator and the exporter are external; the translator is a
parameter, a span whose translation succeeds is exported and collected in
`goodSpans`, a failing one contributes an error. After the loop the function
unconditionally reads `goodSpans[0].TraceId`, which panics (`none`) when no
span translated; otherwise it returns the combined errors, modelled by the
list of exported spans and the error count. -/
def PushOcProtoSpansToOCTraceExporter {α β : Type} (translate : α → Option β)
    (spans : List α) : Option (List α × ℕ) :=
  match spans.filter fun s => (translate s).isSome with
  | [] => none
  | good => some (good, (spans.filter fun s => (translate s).isNone).length)

/-- Deterministic stand-in for the random source: draw `i` is `i`. -/
def idStream : RandStream := fun n => n

/-- A colliding random source: every draw is `0`. -/
def zeroStream : RandStream := fun _ => 0

/-- The minimal example document of spec §6 (with whole-numbered fields): a
single `Seq Scan` plan node under the usual document metadata. -/
def exFields : JFields := JFields.ofList [
  ("start timestamp", JValue.num 1000),
  ("duration", JValue.num 1),
  ("Query Text", JValue.str "SELECT 1"),
  ("username", JValue.str "svc"),
  ("session_username", JValue.str "svc"),
  ("connection_id", JValue.num 42),
  ("database_name", JValue.str "app"),
  ("Plan", JValue.obj (JFields.ofList [
    ("Node Type", JValue.str "Seq Scan"),
    ("Relation Name", JValue.str "users"),
    ("Actual Startup Time", JValue.num 5),
    ("Actual Total Time", JValue.num 40),
    ("Actual Rows", JValue.num 100)]))]

/-- The §6 example document as a dynamic value. -/
def exDoc : JValue := JValue.obj exFields

/-- The §6 example document with its `username` field removed (spec §8
scenario 8). -/
def noUsernameDoc : JValue := JValue.obj (JFields.ofList [
  ("start timestamp", JValue.num 1000),
  ("duration", JValue.num 1),
  ("Query Text", JValue.str "SELECT 1"),
  ("session_username", JValue.str "svc"),
  ("connection_id", JValue.num 42),
  ("database_name", JValue.str "app"),
  ("Plan", JValue.obj (JFields.ofList [
    ("Node Type", JValue.str "Seq Scan"),
    ("Relation Name", JValue.str "users"),
    ("Actual Startup Time", JValue.num 5),
    ("Actual Total Time", JValue.num 40),
    ("Actual Rows", JValue.num 100)]))])

/-- The §6 example document with `duration` zero: the root span then covers a
zero-length interval. -/
def zeroDurationDoc : JValue := JValue.obj (JFields.ofList [
  ("start timestamp", JValue.num 1000),
  ("duration", JValue.num 0),
  ("Query Text", JValue.str "SELECT 1"),
  ("username", JValue.str "svc"),
  ("session_username", JValue.str "svc"),
  ("connection_id", JValue.num 42),
  ("database_name", JValue.str "app"),
  ("Plan", JValue.obj (JFields.ofList [
    ("Node Type", JValue.str "Seq Scan"),
    ("Relation Name", JValue.str "users"),
    ("Actual Startup Time", JValue.num 5),
    ("Actual Total Time", JValue.num 40),
    ("Actual Rows", JValue.num 100)]))])

/-- The §6 example document with a negative `Actual Startup Time`: the plan
node's reconciled start then precedes the trace start `T0`. -/
def negStartupDoc : JValue := JValue.obj (JFields.ofList [
  ("start timestamp", JValue.num 1000),
  ("duration", JValue.num 1),
  ("Query Text", JValue.str "SELECT 1"),
  ("username", JValue.str "svc"),
  ("session_username", JValue.str "svc"),
  ("connection_id", JValue.num 42),
  ("database_name", JValue.str "app"),
  ("Plan", JValue.obj (JFields.ofList [
    ("Node Type", JValue.str "Seq Scan"),
    ("Relation Name", JValue.str "users"),
    ("Actual Startup Time", JValue.num (-5)),
    ("Actual Total Time", JValue.num 40),
    ("Actual Rows", JValue.num 100)]))])

/-- The spec §8 scenario-7 plan subtree: a parent whose own bookkeeping starts
at 5 ms with one child whose reconciled start is 2 ms after `T0`. -/
def scenarioPlan : JValue := JValue.obj (JFields.ofList [
  ("Node Type", JValue.str "Nested Loop"),
  ("Actual Startup Time", JValue.num 5),
  ("Actual Total Time", JValue.num 8),
  ("Actual Rows", JValue.num 1),
  ("Plans", JValue.arr (JList.ofList [JValue.obj (JFields.ofList [
    ("Node Type", JValue.str "Index Scan"),
    ("Actual Startup Time", JValue.num 2),
    ("Actual Total Time", JValue.num 3),
    ("Actual Rows", JValue.num 1)])]))])

/-- The object fields of a plan node whose startup and total times are both
5 ms while a child starts at 2 ms: its candidate end differs from its
reconciled start. -/
def equalTimesFields : JFields := JFields.ofList [
  ("Node Type", JValue.str "Nested Loop"),
  ("Actual Startup Time", JValue.num 5),
  ("Actual Total Time", JValue.num 5),
  ("Actual Rows", JValue.num 1),
  ("Plans", JValue.arr (JList.ofList [JValue.obj (JFields.ofList [
    ("Node Type", JValue.str "Index Scan"),
    ("Actual Startup Time", JValue.num 2),
    ("Actual Total Time", JValue.num 3),
    ("Actual Rows", JValue.num 1)])]))]

/-- A childless plan node whose startup and total times are both 5 ms. -/
def leafEqualFields : JFields := JFields.ofList [
  ("Node Type", JValue.str "Seq Scan"),
  ("Actual Startup Time", JValue.num 5),
  ("Actual Total Time", JValue.num 5),
  ("Actual Rows", JValue.num 1)]

/-- The node span the converter emits for `exDoc` under `idStream`. -/
def exNodeSpan : Span :=
  { traceId := [0, 0, 0, 0, 0, 0, 0, 0, 1, 0, 0, 0, 0, 0, 0, 0],
    spanId := [3, 0, 0, 0, 0, 0, 0, 0],
    parentSpanId := some [2, 0, 0, 0, 0, 0, 0, 0],
    name := "Seq Scan",
    startTime := 1000005000000,
    endTime := 1000040000000,
    attributes := [("Rows Fetched", AttrValue.int 100), ("Table Name", AttrValue.str "users")] }

/-- The root span the converter emits for `exDoc` under `idStream`. -/
def exRootSpan : Span :=
  { traceId := [0, 0, 0, 0, 0, 0, 0, 0, 1, 0, 0, 0, 0, 0, 0, 0],
    spanId := [2, 0, 0, 0, 0, 0, 0, 0],
    parentSpanId := none,
    name := "CloudSQLQuery",
    startTime := 1000000000000,
    endTime := 1001000000000,
    attributes := [("query", AttrValue.str "SELECT 1"),
      ("username", AttrValue.str "svc"),
      ("session_username", AttrValue.str "svc"),
      ("connection_id", AttrValue.int 42),
      ("database_name", AttrValue.str "app")] }

/-- The root span for `zeroDurationDoc`: its end equals its start. -/
def zdRootSpan : Span :=
  { traceId := [0, 0, 0, 0, 0, 0, 0, 0, 1, 0, 0, 0, 0, 0, 0, 0],
    spanId := [2, 0, 0, 0, 0, 0, 0, 0],
    parentSpanId := none,
    name := "CloudSQLQuery",
    startTime := 1000000000000,
    endTime := 1000000000000,
    attributes := [("query", AttrValue.str "SELECT 1"),
      ("username", AttrValue.str "svc"),
      ("session_username", AttrValue.str "svc"),
      ("connection_id", AttrValue.int 42),
      ("database_name", AttrValue.str "app")] }

/-- The node span for `negStartupDoc`: it starts 5 ms before the root span. -/
def negNodeSpan : Span :=
  { traceId := [0, 0, 0, 0, 0, 0, 0, 0, 1, 0, 0, 0, 0, 0, 0, 0],
    spanId := [3, 0, 0, 0, 0, 0, 0, 0],
    parentSpanId := some [2, 0, 0, 0, 0, 0, 0, 0],
    name := "Seq Scan",
    startTime := 999995000000,
    endTime := 1000040000000,
    attributes := [("Rows Fetched", AttrValue.int 100), ("Table Name", AttrValue.str "users")] }

/-- The node span for `exDoc` under the colliding source `zeroStream`. -/
def exNodeSpan0 : Span :=
  { traceId := [0, 0, 0, 0, 0, 0, 0, 0, 0, 0, 0, 0, 0, 0, 0, 0],
    spanId := [0, 0, 0, 0, 0, 0, 0, 0],
    parentSpanId := some [0, 0, 0, 0, 0, 0, 0, 0],
    name := "Seq Scan",
    startTime := 1000005000000,
    endTime := 1000040000000,
    attributes := [("Rows Fetched", AttrValue.int 100), ("Table Name", AttrValue.str "users")] }

/-- The root span for `exDoc` under the colliding source `zeroStream`: its span
id repeats the node span's. -/
def exRootSpan0 : Span :=
  { traceId := [0, 0, 0, 0, 0, 0, 0, 0, 0, 0, 0, 0, 0, 0, 0, 0],
    spanId := [0, 0, 0, 0, 0, 0, 0, 0],
    parentSpanId := none,
    name := "CloudSQLQuery",
    startTime := 1000000000000,
    endTime := 1001000000000,
    attributes := [("query", AttrValue.str "SELECT 1"),
      ("username", AttrValue.str "svc"),
      ("session_username", AttrValue.str "svc"),
      ("connection_id", AttrValue.int 42),
      ("database_name", AttrValue.str "app")] }

/-- The child span of `scenarioPlan` (and of `equalTimesFields`), converted at
`T0 = 0` with draw index 3 for the parent node. -/
def scenChildSpan : Span :=
  { traceId := [],
    spanId := [4, 0, 0, 0, 0, 0, 0, 0],
    parentSpanId := some [3, 0, 0, 0, 0, 0, 0, 0],
    name := "Index Scan",
    startTime := 2000000,
    endTime := 3000000,
    attributes := [("Rows Fetched", AttrValue.int 1)] }

/-- The parent span of `scenarioPlan`: reconciled down to the child's 2 ms. -/
def scenOwnSpan : Span :=
  { traceId := [],
    spanId := [3, 0, 0, 0, 0, 0, 0, 0],
    parentSpanId := some [],
    name := "Nested Loop",
    startTime := 2000000,
    endTime := 8000000,
    attributes := [("Rows Fetched", AttrValue.int 1)] }

/-- The parent span of `equalTimesFields`: startup equals total, yet the span
is 3 ms long because the child pulled its start down. -/
def etOwnSpan : Span :=
  { traceId := [],
    spanId := [3, 0, 0, 0, 0, 0, 0, 0],
    parentSpanId := some [],
    name := "Nested Loop",
    startTime := 2000000,
    endTime := 5000000,
    attributes := [("Rows Fetched", AttrValue.int 1)] }

/-- The span of the childless `leafEqualFields` node: exactly one nanosecond
long. -/
def leafEqualSpan : Span :=
  { traceId := [],
    spanId := [3, 0, 0, 0, 0, 0, 0, 0],
    parentSpanId := some [],
    name := "Seq Scan",
    startTime := 5000000,
    endTime := 5000001,
    attributes := [("Rows Fetched", AttrValue.int 1)] }

/-- Shape of the attribute list of every plan-node span: the required integer
`Rows Fetched` first, then an optional string `Operation`, then an optional
string `Table Name`, and nothing else. -/
def NodeAttrShape (s : Span) : Prop :=
  ∃ n ops tbs, s.attributes = ("Rows Fetched", AttrValue.int n) :: (ops ++ tbs) ∧
    (ops = [] ∨ ∃ o, ops = [("Operation", AttrValue.str o)]) ∧
    (tbs = [] ∨ ∃ tb, tbs = [("Table Name", AttrValue.str tb)])

theorem ratAdd_eq_add (a b : ℚ) : ratAdd a b = a + b := by
  unfold ratAdd
  rw [Rat.mkRat_eq_div]
  push_cast
  conv_rhs => rw [← Rat.num_div_den a, ← Rat.num_div_den b]
  have ha : ((a.den : ℚ)) ≠ 0 := by positivity
  have hb : ((b.den : ℚ)) ≠ 0 := by positivity
  field_simp

theorem putUint64LE_length (n : ℕ) : (putUint64LE n).length = 8 := by
  simp [putUint64LE]

theorem planSize_pos (v : JValue) : 1 ≤ planSize v := by
  cases v <;> simp [planSize]

theorem listSize_pos : ∀ xs : JList, 1 ≤ listSize xs
  | JList.nil => by simp [listSize]
  | JList.cons v rest => by simp only [listSize]; omega

theorem fieldsSize_pos : ∀ fs : JFields, 1 ≤ fieldsSize fs
  | JFields.nil => by simp [fieldsSize]
  | JFields.cons k v rest => by simp only [fieldsSize]; omega

theorem lookupField_planSize_le : ∀ (fs : JFields) (key : String),
    planSize (lookupField fs key) ≤ fieldsSize fs
  | JFields.nil, _ => by simp [lookupField, planSize, fieldsSize]
  | JFields.cons k v rest, key => by
    simp only [lookupField, fieldsSize]
    split
    · have := fieldsSize_pos rest
      omega
    · have := lookupField_planSize_le rest key
      have := planSize_pos v
      omega

theorem parseChildPlanF_some_inv {fuel : ℕ} {r : RandStream} {plan : JValue} {t0 : ℤ}
    {tid pid : List ℕ} {i : ℕ} {out : ℤ × List Span × ℕ}
    (h : parseChildPlanF fuel r plan t0 tid pid i = some out) :
    ∃ fuel' plan_map node_type su cst csp ci tot attrs,
      fuel = Nat.succ fuel' ∧
      plan = JValue.obj plan_map ∧
      asString (lookupField plan_map "Node Type") = some node_type ∧
      asNum (lookupField plan_map "Actual Startup Time") = some su ∧
      childPlansStepF fuel' r (lookupField plan_map "Plans") t0 tid (putUint64LE (r i))
        (t0 + msDuration su) (i + 1) = some (cst, csp, ci) ∧
      asNum (lookupField plan_map "Actual Total Time") = some tot ∧
      nodeAttributes plan_map = some attrs ∧
      out = (cst, csp ++ [nodeSpanOf tid (putUint64LE (r i)) pid node_type cst
        (t0 + msDuration tot) attrs], ci) := by
  match fuel with
  | 0 => exact absurd h (by simp [parseChildPlanF])
  | Nat.succ fuel' =>
    cases plan with
    | null => exact absurd h (by simp [parseChildPlanF])
    | str s => exact absurd h (by simp [parseChildPlanF])
    | num q => exact absurd h (by simp [parseChildPlanF])
    | arr xs => exact absurd h (by simp [parseChildPlanF])
    | obj plan_map =>
      simp only [parseChildPlanF, generateSpanId, Option.bind_eq_some,
        Option.some.injEq] at h
      obtain ⟨node_type, h1, su, h2, res, h3, tot, h4, attrs, h5, h6⟩ := h
      exact ⟨fuel', plan_map, node_type, su, res.1, res.2.1, res.2.2, tot, attrs, rfl, rfl,
        h1, h2, h3, h4, h5, h6.symm⟩

theorem childPlansStepF_some_inv {fuel : ℕ} {r : RandStream} {plans : JValue} {t0 : ℤ}
    {tid sid : List ℕ} {cand : ℤ} {i : ℕ} {out : ℤ × List Span × ℕ}
    (h : childPlansStepF fuel r plans t0 tid sid cand i = some out) :
    ∃ fuel', fuel = Nat.succ fuel' ∧
      ((plans = JValue.null ∧ out = (cand, ([] : List Span), i)) ∨
       (∃ child_plans, plans = JValue.arr child_plans ∧
         parseChildPlanListF fuel' r child_plans t0 tid sid cand i = some out)) := by
  match fuel with
  | 0 => exact absurd h (by simp [childPlansStepF])
  | Nat.succ fuel' =>
    cases plans with
    | null =>
      simp only [childPlansStepF, Option.some.injEq] at h
      exact ⟨fuel', rfl, Or.inl ⟨rfl, h.symm⟩⟩
    | str s => exact absurd h (by simp [childPlansStepF])
    | num q => exact absurd h (by simp [childPlansStepF])
    | arr child_plans =>
      simp only [childPlansStepF] at h
      exact ⟨fuel', rfl, Or.inr ⟨child_plans, rfl, h⟩⟩
    | obj fs => exact absurd h (by simp [childPlansStepF])

theorem parseChildPlanListF_some_inv {fuel : ℕ} {r : RandStream} {cs : JList} {t0 : ℤ}
    {tid sid : List ℕ} {acc : ℤ} {i : ℕ} {out : ℤ × List Span × ℕ}
    (h : parseChildPlanListF fuel r cs t0 tid sid acc i = some out) :
    ∃ fuel', fuel = Nat.succ fuel' ∧
      ((cs = JList.nil ∧ out = (acc, ([] : List Span), i)) ∨
       (∃ child_plan rest cst csp ci rst rsp ri, cs = JList.cons child_plan rest ∧
         parseChildPlanF fuel' r child_plan t0 tid sid i = some (cst, csp, ci) ∧
         parseChildPlanListF fuel' r rest t0 tid sid
           (if cst < acc then cst else acc) ci = some (rst, rsp, ri) ∧
         out = (rst, csp ++ rsp, ri))) := by
  match fuel with
  | 0 => exact absurd h (by simp [parseChildPlanListF])
  | Nat.succ fuel' =>
    cases cs with
    | nil =>
      simp only [parseChildPlanListF, Option.some.injEq] at h
      exact ⟨fuel', rfl, Or.inl ⟨rfl, h.symm⟩⟩
    | cons child_plan rest =>
      simp only [parseChildPlanListF, Option.bind_eq_some, Option.some.injEq] at h
      obtain ⟨cres, hc, rres, hr, hout⟩ := h
      exact ⟨fuel', rfl, Or.inr ⟨child_plan, rest, cres.1, cres.2.1, cres.2.2,
        rres.1, rres.2.1, rres.2.2, rfl, hc, hr, hout.symm⟩⟩

theorem min_as_goUpdate (a c : ℤ) : min a c = if c < a then c else a := by
  rcases lt_or_le c a with h | h
  · rw [if_pos h]
    exact min_eq_right (le_of_lt h)
  · rw [if_neg (not_lt.mpr h)]
    exact min_eq_left h

/-- Timing facts of the converter, by induction on the fuel: the reconciled
start returned for a subtree is exactly the specification's bottom-up
minimum (`reconciledStartF`), it bounds every span's start in the subtree from
below, and no span in the subtree has `endTime` equal to `startTime`. -/
theorem masterTime : ∀ fuel : ℕ,
    (∀ r plan t0 tid pid i st sp i2,
      parseChildPlanF fuel r plan t0 tid pid i = some (st, sp, i2) →
      reconciledStartF fuel t0 plan = some st ∧
      (∀ s ∈ sp, st ≤ s.startTime) ∧ (∀ s ∈ sp, s.endTime ≠ s.startTime)) ∧
    (∀ r plans t0 tid sid cand i st sp i2,
      childPlansStepF fuel r plans t0 tid sid cand i = some (st, sp, i2) →
      reconciledStepF fuel t0 plans cand = some st ∧ st ≤ cand ∧
      (∀ s ∈ sp, st ≤ s.startTime) ∧ (∀ s ∈ sp, s.endTime ≠ s.startTime)) ∧
    (∀ r cs t0 tid sid acc i st sp i2,
      parseChildPlanListF fuel r cs t0 tid sid acc i = some (st, sp, i2) →
      reconciledStartListF fuel t0 cs acc = some st ∧ st ≤ acc ∧
      (∀ s ∈ sp, st ≤ s.startTime) ∧ (∀ s ∈ sp, s.endTime ≠ s.startTime)) := by
  intro fuel
  induction fuel with
  | zero =>
    refine ⟨?_, ?_, ?_⟩
    · intro r plan t0 tid pid i st sp i2 h
      exact absurd h (by simp [parseChildPlanF])
    · intro r plans t0 tid sid cand i st sp i2 h
      exact absurd h (by simp [childPlansStepF])
    · intro r cs t0 tid sid acc i st sp i2 h
      exact absurd h (by simp [parseChildPlanListF])
  | succ fuel ih =>
    obtain ⟨ihP, ihS, ihL⟩ := ih
    refine ⟨?_, ?_, ?_⟩
    · intro r plan t0 tid pid i st sp i2 h
      obtain ⟨f', pm, nt, su, cst, csp, ci, tot, attrs, hf, rfl, h1, h2, h3, h4, h5, hout⟩ :=
        parseChildPlanF_some_inv h
      have hfe : f' = fuel := by omega
      subst hfe
      simp only [Prod.mk.injEq] at hout
      obtain ⟨rfl, rfl, rfl⟩ := hout
      obtain ⟨hrs, hle, hstarts, hends⟩ := ihS _ _ _ _ _ _ _ _ _ _ h3
      refine ⟨?_, ?_, ?_⟩
      · simp only [reconciledStartF, h2, Option.some_bind]
        exact hrs
      · intro s hs
        rcases List.mem_append.mp hs with hmem | hmem
        · exact hstarts s hmem
        · simp only [List.mem_singleton] at hmem
          subst hmem
          simp [nodeSpanOf]
      · intro s hs
        rcases List.mem_append.mp hs with hmem | hmem
        · exact hends s hmem
        · simp only [List.mem_singleton] at hmem
          subst hmem
          simp only [nodeSpanOf]
          split
          · omega
          · assumption
    · intro r plans t0 tid sid cand i st sp i2 h
      obtain ⟨f', hf, hcase⟩ := childPlansStepF_some_inv h
      have hfe : f' = fuel := by omega
      subst hfe
      rcases hcase with ⟨rfl, hout⟩ | ⟨child_plans, rfl, hlist⟩
      · simp only [Prod.mk.injEq] at hout
        obtain ⟨rfl, rfl, rfl⟩ := hout
        exact ⟨by simp [reconciledStepF], le_refl _, by simp, by simp⟩
      · obtain ⟨hrs, hle, hstarts, hends⟩ := ihL _ _ _ _ _ _ _ _ _ _ hlist
        exact ⟨by simp only [reconciledStepF]; exact hrs, hle, hstarts, hends⟩
    · intro r cs t0 tid sid acc i st sp i2 h
      obtain ⟨f', hf, hcase⟩ := parseChildPlanListF_some_inv h
      have hfe : f' = fuel := by omega
      subst hfe
      rcases hcase with ⟨rfl, hout⟩ | ⟨c, rest, cst, csp, ci, rst, rsp, ri, rfl, hc, hr, hout⟩
      · simp only [Prod.mk.injEq] at hout
        obtain ⟨rfl, rfl, rfl⟩ := hout
        exact ⟨by simp [reconciledStartListF], le_refl _, by simp, by simp⟩
      · simp only [Prod.mk.injEq] at hout
        obtain ⟨rfl, rfl, rfl⟩ := hout
        obtain ⟨hcrs, hcstarts, hcends⟩ := ihP _ _ _ _ _ _ _ _ _ hc
        obtain ⟨hrrs, hrle, hrstarts, hrends⟩ := ihL _ _ _ _ _ _ _ _ _ _ hr
        have hstc : st ≤ cst := by
          rcases lt_or_le cst acc with hlt | hge
          · rwa [if_pos hlt] at hrle
          · rw [if_neg (not_lt.mpr hge)] at hrle
            omega
        refine ⟨?_, ?_, ?_, ?_⟩
        · simp only [reconciledStartListF, hcrs, Option.some_bind, min_as_goUpdate]
          exact hrrs
        · rcases lt_or_le cst acc with hlt | hge
          · rw [if_pos hlt] at hrle
            omega
          · rwa [if_neg (not_lt.mpr hge)] at hrle
        · intro s hs
          rcases List.mem_append.mp hs with hmem | hmem
          · exact le_trans hstc (hcstarts s hmem)
          · exact hrstarts s hmem
        · intro s hs
          rcases List.mem_append.mp hs with hmem | hmem
          · exact hcends s hmem
          · exact hrends s hmem

theorem asNum_eq_some {v : JValue} {q : ℚ} (h : asNum v = some q) : v = JValue.num q := by
  cases v <;> simp_all [asNum]

theorem asString_eq_some {v : JValue} {s : String} (h : asString v = some s) :
    v = JValue.str s := by
  cases v <;> simp_all [asString]

theorem optionalStringAttr_some_inv {key : String} {v : JValue}
    {l : List (String × AttrValue)} (h : optionalStringAttr key v = some l) :
    l = [] ∨ ∃ s, l = [(key, AttrValue.str s)] := by
  cases v <;> simp [optionalStringAttr, stringToAttributeValue] at h
  · exact Or.inl h
  · exact Or.inr ⟨_, h.symm⟩

theorem nodeAttributes_shape {pm : JFields} {attrs : List (String × AttrValue)}
    (h : nodeAttributes pm = some attrs) :
    ∃ n ops tbs, attrs = ("Rows Fetched", AttrValue.int n) :: (ops ++ tbs) ∧
      (ops = [] ∨ ∃ o, ops = [("Operation", AttrValue.str o)]) ∧
      (tbs = [] ∨ ∃ tb, tbs = [("Table Name", AttrValue.str tb)]) := by
  simp only [nodeAttributes, Option.bind_eq_some, Option.some.injEq] at h
  obtain ⟨rows, h1, ops, h2, tbs, h3, h4⟩ := h
  exact ⟨int64OfFloat rows, ops, tbs, by rw [← h4, int64ToAttributeValue],
    optionalStringAttr_some_inv h2, optionalStringAttr_some_inv h3⟩

/-- Structural facts of the converter, by induction on the fuel: the span list
of a subtree decomposes as the children's spans followed by the node's own
span (with the node's name, attributes, candidate end and the caller's parent
span id), the emitted names are the specification's post-order enumeration,
every span carries the given trace id, and every span's attribute list has the
node shape. -/
theorem masterShape : ∀ fuel : ℕ,
    (∀ r plan t0 tid pid i st sp i2,
      parseChildPlanF fuel r plan t0 tid pid i = some (st, sp, i2) →
      (∃ pm node_type tot attrs csp,
        plan = JValue.obj pm ∧
        asString (lookupField pm "Node Type") = some node_type ∧
        nodeAttributes pm = some attrs ∧
        asNum (lookupField pm "Actual Total Time") = some tot ∧
        sp = csp ++ [nodeSpanOf tid (putUint64LE (r i)) pid node_type st
          (t0 + msDuration tot) attrs]) ∧
      postNamesF fuel plan = some (sp.map Span.name) ∧
      (∀ s ∈ sp, s.traceId = tid) ∧ (∀ s ∈ sp, NodeAttrShape s)) ∧
    (∀ r plans t0 tid sid cand i st sp i2,
      childPlansStepF fuel r plans t0 tid sid cand i = some (st, sp, i2) →
      postNamesStepF fuel plans = some (sp.map Span.name) ∧
      (∀ s ∈ sp, s.traceId = tid) ∧ (∀ s ∈ sp, NodeAttrShape s)) ∧
    (∀ r cs t0 tid sid acc i st sp i2,
      parseChildPlanListF fuel r cs t0 tid sid acc i = some (st, sp, i2) →
      postNamesListF fuel cs = some (sp.map Span.name) ∧
      (∀ s ∈ sp, s.traceId = tid) ∧ (∀ s ∈ sp, NodeAttrShape s)) := by
  intro fuel
  induction fuel with
  | zero =>
    refine ⟨?_, ?_, ?_⟩
    · intro r plan t0 tid pid i st sp i2 h
      exact absurd h (by simp [parseChildPlanF])
    · intro r plans t0 tid sid cand i st sp i2 h
      exact absurd h (by simp [childPlansStepF])
    · intro r cs t0 tid sid acc i st sp i2 h
      exact absurd h (by simp [parseChildPlanListF])
  | succ fuel ih =>
    obtain ⟨ihP, ihS, ihL⟩ := ih
    refine ⟨?_, ?_, ?_⟩
    · intro r plan t0 tid pid i st sp i2 h
      obtain ⟨f', pm, nt, su, cst, csp, ci, tot, attrs, hf, rfl, h1, h2, h3, h4, h5, hout⟩ :=
        parseChildPlanF_some_inv h
      have hfe : f' = fuel := by omega
      subst hfe
      simp only [Prod.mk.injEq] at hout
      obtain ⟨rfl, rfl, rfl⟩ := hout
      obtain ⟨hns, htid, hshape⟩ := ihS _ _ _ _ _ _ _ _ _ _ h3
      refine ⟨⟨pm, nt, tot, attrs, csp, rfl, h1, h5, h4, rfl⟩, ?_, ?_, ?_⟩
      · simp only [postNamesF, h1, Option.some_bind, hns, List.map_append]
        simp [nodeSpanOf]
      · intro s hs
        rcases List.mem_append.mp hs with hmem | hmem
        · exact htid s hmem
        · simp only [List.mem_singleton] at hmem
          subst hmem
          simp [nodeSpanOf]
      · intro s hs
        rcases List.mem_append.mp hs with hmem | hmem
        · exact hshape s hmem
        · simp only [List.mem_singleton] at hmem
          subst hmem
          exact nodeAttributes_shape h5
    · intro r plans t0 tid sid cand i st sp i2 h
      obtain ⟨f', hf, hcase⟩ := childPlansStepF_some_inv h
      have hfe : f' = fuel := by omega
      subst hfe
      rcases hcase with ⟨rfl, hout⟩ | ⟨child_plans, rfl, hlist⟩
      · simp only [Prod.mk.injEq] at hout
        obtain ⟨rfl, rfl, rfl⟩ := hout
        exact ⟨by simp [postNamesStepF], by simp, by simp⟩
      · obtain ⟨hns, htid, hshape⟩ := ihL _ _ _ _ _ _ _ _ _ _ hlist
        exact ⟨by simp only [postNamesStepF]; exact hns, htid, hshape⟩
    · intro r cs t0 tid sid acc i st sp i2 h
      obtain ⟨f', hf, hcase⟩ := parseChildPlanListF_some_inv h
      have hfe : f' = fuel := by omega
      subst hfe
      rcases hcase with ⟨rfl, hout⟩ | ⟨c, rest, cst, csp, ci, rst, rsp, ri, rfl, hc, hr, hout⟩
      · simp only [Prod.mk.injEq] at hout
        obtain ⟨rfl, rfl, rfl⟩ := hout
        exact ⟨by simp [postNamesListF], by simp, by simp⟩
      · simp only [Prod.mk.injEq] at hout
        obtain ⟨rfl, rfl, rfl⟩ := hout
        obtain ⟨⟨pmc, ntc, totc, attrsc, cspc, hplanc, hnt, hna, htot, hspc⟩, hcns, hctid,
          hcshape⟩ := ihP _ _ _ _ _ _ _ _ _ hc
        obtain ⟨hrns, hrtid, hrshape⟩ := ihL _ _ _ _ _ _ _ _ _ _ hr
        refine ⟨?_, ?_, ?_⟩
        · simp only [postNamesListF, hcns, hrns, Option.some_bind, List.map_append,
            Option.some.injEq]
        · intro s hs
          rcases List.mem_append.mp hs with hmem | hmem
          · exact hctid s hmem
          · exact hrtid s hmem
        · intro s hs
          rcases List.mem_append.mp hs with hmem | hmem
          · exact hcshape s hmem
          · exact hrshape s hmem

/-- Draw accounting, by induction on the fuel: a subtree conversion consumes
the draw indices of a half-open interval, and the span ids it emits are the
draws of pairwise distinct indices inside that interval. -/
theorem masterIdx : ∀ fuel : ℕ,
    (∀ r plan t0 tid pid i st sp i2,
      parseChildPlanF fuel r plan t0 tid pid i = some (st, sp, i2) →
      i < i2 ∧ ∃ idxs : List ℕ,
        sp.map Span.spanId = idxs.map (fun j => putUint64LE (r j)) ∧
        idxs.Nodup ∧ ∀ j ∈ idxs, i ≤ j ∧ j < i2) ∧
    (∀ r plans t0 tid sid cand i st sp i2,
      childPlansStepF fuel r plans t0 tid sid cand i = some (st, sp, i2) →
      i ≤ i2 ∧ ∃ idxs : List ℕ,
        sp.map Span.spanId = idxs.map (fun j => putUint64LE (r j)) ∧
        idxs.Nodup ∧ ∀ j ∈ idxs, i ≤ j ∧ j < i2) ∧
    (∀ r cs t0 tid sid acc i st sp i2,
      parseChildPlanListF fuel r cs t0 tid sid acc i = some (st, sp, i2) →
      i ≤ i2 ∧ ∃ idxs : List ℕ,
        sp.map Span.spanId = idxs.map (fun j => putUint64LE (r j)) ∧
        idxs.Nodup ∧ ∀ j ∈ idxs, i ≤ j ∧ j < i2) := by
  intro fuel
  induction fuel with
  | zero =>
    refine ⟨?_, ?_, ?_⟩
    · intro r plan t0 tid pid i st sp i2 h
      exact absurd h (by simp [parseChildPlanF])
    · intro r plans t0 tid sid cand i st sp i2 h
      exact absurd h (by simp [childPlansStepF])
    · intro r cs t0 tid sid acc i st sp i2 h
      exact absurd h (by simp [parseChildPlanListF])
  | succ fuel ih =>
    obtain ⟨ihP, ihS, ihL⟩ := ih
    refine ⟨?_, ?_, ?_⟩
    · intro r plan t0 tid pid i st sp i2 h
      obtain ⟨f', pm, nt, su, cst, csp, ci, tot, attrs, hf, rfl, h1, h2, h3, h4, h5, hout⟩ :=
        parseChildPlanF_some_inv h
      have hfe : f' = fuel := by omega
      subst hfe
      simp only [Prod.mk.injEq] at hout
      obtain ⟨rfl, rfl, rfl⟩ := hout
      obtain ⟨hlt, idxs, hmap, hnd, hbound⟩ := ihS _ _ _ _ _ _ _ _ _ _ h3
      refine ⟨by omega, idxs ++ [i], ?_, ?_, ?_⟩
      · simp only [List.map_append, hmap, List.map_singleton, nodeSpanOf]
      · rw [List.nodup_append]
        refine ⟨hnd, List.nodup_singleton i, ?_⟩
        intro a ha hai
        simp only [List.mem_singleton] at hai
        subst hai
        have := (hbound a ha).1
        omega
      · intro j hj
        rcases List.mem_append.mp hj with hmem | hmem
        · have := hbound j hmem
          omega
        · simp only [List.mem_singleton] at hmem
          omega
    · intro r plans t0 tid sid cand i st sp i2 h
      obtain ⟨f', hf, hcase⟩ := childPlansStepF_some_inv h
      have hfe : f' = fuel := by omega
      subst hfe
      rcases hcase with ⟨rfl, hout⟩ | ⟨child_plans, rfl, hlist⟩
      · simp only [Prod.mk.injEq] at hout
        obtain ⟨rfl, rfl, rfl⟩ := hout
        exact ⟨le_refl _, [], by simp, List.nodup_nil, by simp⟩
      · exact ihL _ _ _ _ _ _ _ _ _ _ hlist
    · intro r cs t0 tid sid acc i st sp i2 h
      obtain ⟨f', hf, hcase⟩ := parseChildPlanListF_some_inv h
      have hfe : f' = fuel := by omega
      subst hfe
      rcases hcase with ⟨rfl, hout⟩ | ⟨c, rest, cst, csp, ci, rst, rsp, ri, rfl, hc, hr, hout⟩
      · simp only [Prod.mk.injEq] at hout
        obtain ⟨rfl, rfl, rfl⟩ := hout
        exact ⟨le_refl _, [], by simp, List.nodup_nil, by simp⟩
      · simp only [Prod.mk.injEq] at hout
        obtain ⟨rfl, rfl, rfl⟩ := hout
        obtain ⟨hclt, cidxs, hcmap, hcnd, hcbound⟩ := ihP _ _ _ _ _ _ _ _ _ hc
        obtain ⟨hrle, ridxs, hrmap, hrnd, hrbound⟩ := ihL _ _ _ _ _ _ _ _ _ _ hr
        refine ⟨by omega, cidxs ++ ridxs, ?_, ?_, ?_⟩
        · simp only [List.map_append, hcmap, hrmap]
        · rw [List.nodup_append]
          refine ⟨hcnd, hrnd, ?_⟩
          intro a ha har
          have h1 := (hcbound a ha).2
          have h2 := (hrbound a har).1
          omega
        · intro j hj
          rcases List.mem_append.mp hj with hmem | hmem
          · have := hcbound j hmem
            omega
          · have := hrbound j hmem
            omega

/-- Parent linkage, by induction on the fuel: every span of a subtree either
carries the subtree's external parent span id, or points at another span of
the same subtree that starts no later. -/
theorem masterPtr : ∀ fuel : ℕ,
    (∀ r plan t0 tid pid i st sp i2,
      parseChildPlanF fuel r plan t0 tid pid i = some (st, sp, i2) →
      ∀ s ∈ sp, s.parentSpanId = some pid ∨
        ∃ s' ∈ sp, s.parentSpanId = some s'.spanId ∧ s'.startTime ≤ s.startTime) ∧
    (∀ r plans t0 tid sid cand i st sp i2,
      childPlansStepF fuel r plans t0 tid sid cand i = some (st, sp, i2) →
      ∀ s ∈ sp, s.parentSpanId = some sid ∨
        ∃ s' ∈ sp, s.parentSpanId = some s'.spanId ∧ s'.startTime ≤ s.startTime) ∧
    (∀ r cs t0 tid sid acc i st sp i2,
      parseChildPlanListF fuel r cs t0 tid sid acc i = some (st, sp, i2) →
      ∀ s ∈ sp, s.parentSpanId = some sid ∨
        ∃ s' ∈ sp, s.parentSpanId = some s'.spanId ∧ s'.startTime ≤ s.startTime) := by
  intro fuel
  induction fuel with
  | zero =>
    refine ⟨?_, ?_, ?_⟩
    · intro r plan t0 tid pid i st sp i2 h
      exact absurd h (by simp [parseChildPlanF])
    · intro r plans t0 tid sid cand i st sp i2 h
      exact absurd h (by simp [childPlansStepF])
    · intro r cs t0 tid sid acc i st sp i2 h
      exact absurd h (by simp [parseChildPlanListF])
  | succ fuel ih =>
    obtain ⟨ihP, ihS, ihL⟩ := ih
    refine ⟨?_, ?_, ?_⟩
    · intro r plan t0 tid pid i st sp i2 h
      obtain ⟨f', pm, nt, su, cst, csp, ci, tot, attrs, hf, rfl, h1, h2, h3, h4, h5, hout⟩ :=
        parseChildPlanF_some_inv h
      have hfe : f' = fuel := by omega
      subst hfe
      simp only [Prod.mk.injEq] at hout
      obtain ⟨rfl, rfl, rfl⟩ := hout
      obtain ⟨_, _, hstarts, _⟩ := (masterTime _).2.1 _ _ _ _ _ _ _ _ _ _ h3
      intro s hs
      rcases List.mem_append.mp hs with hmem | hmem
      · rcases ihS _ _ _ _ _ _ _ _ _ _ h3 s hmem with hpar | ⟨s', hs', hpar, hle⟩
        · refine Or.inr ⟨nodeSpanOf tid (putUint64LE (r i)) pid nt st
            (t0 + msDuration tot) attrs, ?_, ?_, ?_⟩
          · exact List.mem_append.mpr (Or.inr (List.mem_singleton.mpr rfl))
          · simpa [nodeSpanOf] using hpar
          · simpa [nodeSpanOf] using hstarts s hmem
        · exact Or.inr ⟨s', List.mem_append.mpr (Or.inl hs'), hpar, hle⟩
      · simp only [List.mem_singleton] at hmem
        subst hmem
        exact Or.inl (by simp [nodeSpanOf])
    · intro r plans t0 tid sid cand i st sp i2 h
      obtain ⟨f', hf, hcase⟩ := childPlansStepF_some_inv h
      have hfe : f' = fuel := by omega
      subst hfe
      rcases hcase with ⟨rfl, hout⟩ | ⟨child_plans, rfl, hlist⟩
      · simp only [Prod.mk.injEq] at hout
        obtain ⟨rfl, rfl, rfl⟩ := hout
        simp
      · exact ihL _ _ _ _ _ _ _ _ _ _ hlist
    · intro r cs t0 tid sid acc i st sp i2 h
      obtain ⟨f', hf, hcase⟩ := parseChildPlanListF_some_inv h
      have hfe : f' = fuel := by omega
      subst hfe
      rcases hcase with ⟨rfl, hout⟩ | ⟨c, rest, cst, csp, ci, rst, rsp, ri, rfl, hc, hr, hout⟩
      · simp only [Prod.mk.injEq] at hout
        obtain ⟨rfl, rfl, rfl⟩ := hout
        simp
      · simp only [Prod.mk.injEq] at hout
        obtain ⟨rfl, rfl, rfl⟩ := hout
        intro s hs
        rcases List.mem_append.mp hs with hmem | hmem
        · rcases ihP _ _ _ _ _ _ _ _ _ hc s hmem with hpar | ⟨s', hs', hpar, hle⟩
          · exact Or.inl hpar
          · exact Or.inr ⟨s', List.mem_append.mpr (Or.inl hs'), hpar, hle⟩
        · rcases ihL _ _ _ _ _ _ _ _ _ _ hr s hmem with hpar | ⟨s', hs', hpar, hle⟩
          · exact Or.inl hpar
          · exact Or.inr ⟨s', List.mem_append.mpr (Or.inr hs'), hpar, hle⟩

theorem msDuration_nonneg {ms : ℚ} (h : 0 ≤ ms) : 0 ≤ msDuration ms := by
  refine Int.tdiv_nonneg (mul_nonneg ?_ (by norm_num)) (by positivity)
  exact Rat.num_nonneg.mpr h

theorem lookupField_startupsNonneg : ∀ (fs : JFields) (key : String),
    startupsNonnegFields fs = true → startupsNonneg (lookupField fs key) = true
  | JFields.nil, _, _ => by simp [lookupField, startupsNonneg]
  | JFields.cons k v rest, key, h => by
    simp only [startupsNonnegFields, Bool.and_eq_true] at h
    obtain ⟨⟨hk, hv⟩, hrest⟩ := h
    simp only [lookupField]
    split
    · exact hv
    · exact lookupField_startupsNonneg rest key hrest

theorem lookupField_startup_nonneg : ∀ (fs : JFields) (su : ℚ),
    startupsNonnegFields fs = true →
    lookupField fs "Actual Startup Time" = JValue.num su → 0 ≤ su
  | JFields.nil, su, _, h => by simp [lookupField] at h
  | JFields.cons k v rest, su, hn, h => by
    simp only [startupsNonnegFields, Bool.and_eq_true] at hn
    obtain ⟨⟨hk, hv⟩, hrest⟩ := hn
    simp only [lookupField] at h
    by_cases hkey : k = "Actual Startup Time"
    · rw [if_pos hkey] at h
      rw [if_pos hkey] at hk
      subst h
      simpa using hk
    · rw [if_neg hkey] at h
      exact lookupField_startup_nonneg rest su hrest h

/-- When every `Actual Startup Time` in the subtree is nonnegative, the
reconciled start the converter returns never precedes the trace start. -/
theorem masterNonneg : ∀ fuel : ℕ,
    (∀ r plan t0 tid pid i st sp i2, startupsNonneg plan = true →
      parseChildPlanF fuel r plan t0 tid pid i = some (st, sp, i2) → t0 ≤ st) ∧
    (∀ r plans t0 tid sid cand i st sp i2, startupsNonneg plans = true → t0 ≤ cand →
      childPlansStepF fuel r plans t0 tid sid cand i = some (st, sp, i2) → t0 ≤ st) ∧
    (∀ r cs t0 tid sid acc i st sp i2, startupsNonnegList cs = true → t0 ≤ acc →
      parseChildPlanListF fuel r cs t0 tid sid acc i = some (st, sp, i2) → t0 ≤ st) := by
  intro fuel
  induction fuel with
  | zero =>
    refine ⟨?_, ?_, ?_⟩
    · intro r plan t0 tid pid i st sp i2 _ h
      exact absurd h (by simp [parseChildPlanF])
    · intro r plans t0 tid sid cand i st sp i2 _ _ h
      exact absurd h (by simp [childPlansStepF])
    · intro r cs t0 tid sid acc i st sp i2 _ _ h
      exact absurd h (by simp [parseChildPlanListF])
  | succ fuel ih =>
    obtain ⟨ihP, ihS, ihL⟩ := ih
    refine ⟨?_, ?_, ?_⟩
    · intro r plan t0 tid pid i st sp i2 hn h
      obtain ⟨f', pm, nt, su, cst, csp, ci, tot, attrs, hf, rfl, h1, h2, h3, h4, h5, hout⟩ :=
        parseChildPlanF_some_inv h
      have hfe : f' = fuel := by omega
      subst hfe
      simp only [Prod.mk.injEq] at hout
      obtain ⟨rfl, rfl, rfl⟩ := hout
      simp only [startupsNonneg] at hn
      have hsu : 0 ≤ su := lookupField_startup_nonneg pm su hn (asNum_eq_some h2)
      have hcand : t0 ≤ t0 + msDuration su := by
        have := msDuration_nonneg hsu
        omega
      exact ihS _ _ _ _ _ _ _ _ _ _ (lookupField_startupsNonneg pm "Plans" hn) hcand h3
    · intro r plans t0 tid sid cand i st sp i2 hn hc h
      obtain ⟨f', hf, hcase⟩ := childPlansStepF_some_inv h
      have hfe : f' = fuel := by omega
      subst hfe
      rcases hcase with ⟨rfl, hout⟩ | ⟨child_plans, rfl, hlist⟩
      · simp only [Prod.mk.injEq] at hout
        obtain ⟨rfl, rfl, rfl⟩ := hout
        exact hc
      · simp only [startupsNonneg] at hn
        exact ihL _ _ _ _ _ _ _ _ _ _ hn hc hlist
    · intro r cs t0 tid sid acc i st sp i2 hn hc h
      obtain ⟨f', hf, hcase⟩ := parseChildPlanListF_some_inv h
      have hfe : f' = fuel := by omega
      subst hfe
      rcases hcase with ⟨rfl, hout⟩ | ⟨c, rest, cst, csp, ci, rst, rsp, ri, rfl, hcp, hr, hout⟩
      · simp only [Prod.mk.injEq] at hout
        obtain ⟨rfl, rfl, rfl⟩ := hout
        exact hc
      · simp only [Prod.mk.injEq] at hout
        obtain ⟨rfl, rfl, rfl⟩ := hout
        simp only [startupsNonnegList, Bool.and_eq_true] at hn
        obtain ⟨hnc, hnrest⟩ := hn
        have hcst : t0 ≤ cst := ihP _ _ _ _ _ _ _ _ _ hnc hcp
        have hacc : t0 ≤ (if cst < acc then cst else acc) := by
          split <;> omega
        exact ihL _ _ _ _ _ _ _ _ _ _ hnrest hacc hr

theorem parseExecutionPlanT_some_inv {r : RandStream} {message : JValue}
    {batch : List Span} {iEnd : ℕ}
    (h : parseExecutionPlanT r message = some (batch, iEnd)) :
    ∃ pm ts dur attrs st sp,
      message = JValue.obj pm ∧
      asNum (lookupField pm "start timestamp") = some ts ∧
      asNum (lookupField pm "duration") = some dur ∧
      documentAttributes pm = some attrs ∧
      parseChildPlanF (planSize (lookupField pm "Plan")) r (lookupField pm "Plan")
        (timestampToTime ts) (putUint64LE (r 0) ++ putUint64LE (r 1)) (putUint64LE (r 2)) 3 =
        some (st, sp, iEnd) ∧
      batch = sp ++ [rootSpanOf r ts dur attrs] := by
  cases message with
  | null => exact absurd h (by simp [parseExecutionPlanT])
  | str s => exact absurd h (by simp [parseExecutionPlanT])
  | num q => exact absurd h (by simp [parseExecutionPlanT])
  | arr xs => exact absurd h (by simp [parseExecutionPlanT])
  | obj pm =>
    simp only [parseExecutionPlanT, generateTraceId, generateSpanId, Option.bind_eq_some,
      Option.some.injEq] at h
    obtain ⟨ts, h1, dur, h2, attrs, h3, res, h4, h5⟩ := h
    simp only [Prod.mk.injEq] at h5
    obtain ⟨hb, hi⟩ := h5
    subst hi
    exact ⟨pm, ts, dur, attrs, res.1, res.2.1, rfl, h1, h2, h3, h4, hb.symm⟩

/-- Fuel irrelevance: above `planSize` of the traversed value, the fueled
parser's result does not depend on the fuel, so `planSize` (the fuel
`parseExecutionPlanT` supplies) fully captures the unbounded Go recursion. -/
theorem fuel_irrel_aux : ∀ n : ℕ,
    (∀ fuel fuel' r plan t0 tid pid i, fuel ≤ n → planSize plan ≤ fuel →
      planSize plan ≤ fuel' →
      parseChildPlanF fuel r plan t0 tid pid i = parseChildPlanF fuel' r plan t0 tid pid i) ∧
    (∀ fuel fuel' r plans t0 tid sid cand i, fuel ≤ n → planSize plans ≤ fuel →
      planSize plans ≤ fuel' →
      childPlansStepF fuel r plans t0 tid sid cand i =
        childPlansStepF fuel' r plans t0 tid sid cand i) ∧
    (∀ fuel fuel' r cs t0 tid sid acc i, fuel ≤ n → listSize cs ≤ fuel →
      listSize cs ≤ fuel' →
      parseChildPlanListF fuel r cs t0 tid sid acc i =
        parseChildPlanListF fuel' r cs t0 tid sid acc i) := by
  intro n
  induction n with
  | zero =>
    refine ⟨?_, ?_, ?_⟩
    · intro fuel fuel' r plan t0 tid pid i hn h1 h2
      exfalso
      have := planSize_pos plan
      omega
    · intro fuel fuel' r plans t0 tid sid cand i hn h1 h2
      exfalso
      have := planSize_pos plans
      omega
    · intro fuel fuel' r cs t0 tid sid acc i hn h1 h2
      exfalso
      have := listSize_pos cs
      omega
  | succ n ih =>
    obtain ⟨ihP, ihS, ihL⟩ := ih
    refine ⟨?_, ?_, ?_⟩
    · intro fuel fuel' r plan t0 tid pid i hn h1 h2
      obtain ⟨f, rfl⟩ : ∃ f, fuel = f + 1 :=
        ⟨fuel - 1, by have := planSize_pos plan; omega⟩
      obtain ⟨f', rfl⟩ : ∃ f', fuel' = f' + 1 :=
        ⟨fuel' - 1, by have := planSize_pos plan; omega⟩
      cases plan with
      | null => rfl
      | str s => rfl
      | num q => rfl
      | arr xs => rfl
      | obj pm =>
        have hlk := lookupField_planSize_le pm "Plans"
        simp only [planSize] at h1 h2
        simp only [parseChildPlanF]
        cases hnt : asString (lookupField pm "Node Type") with
        | none => rfl
        | some nt =>
          simp only [Option.some_bind]
          cases hsu : asNum (lookupField pm "Actual Startup Time") with
          | none => rfl
          | some su =>
            simp only [Option.some_bind]
            rw [ihS f f' r (lookupField pm "Plans") t0 tid (generateSpanId r i).1
              (t0 + msDuration su) (i + 1) (by omega) (by omega) (by omega)]
    · intro fuel fuel' r plans t0 tid sid cand i hn h1 h2
      obtain ⟨f, rfl⟩ : ∃ f, fuel = f + 1 :=
        ⟨fuel - 1, by have := planSize_pos plans; omega⟩
      obtain ⟨f', rfl⟩ : ∃ f', fuel' = f' + 1 :=
        ⟨fuel' - 1, by have := planSize_pos plans; omega⟩
      cases plans with
      | null => rfl
      | str s => rfl
      | num q => rfl
      | obj pm => rfl
      | arr cs =>
        simp only [planSize] at h1 h2
        simp only [childPlansStepF]
        exact ihL f f' r cs t0 tid sid cand i (by omega) (by omega) (by omega)
    · intro fuel fuel' r cs t0 tid sid acc i hn h1 h2
      obtain ⟨f, rfl⟩ : ∃ f, fuel = f + 1 :=
        ⟨fuel - 1, by have := listSize_pos cs; omega⟩
      obtain ⟨f', rfl⟩ : ∃ f', fuel' = f' + 1 :=
        ⟨fuel' - 1, by have := listSize_pos cs; omega⟩
      cases cs with
      | nil => rfl
      | cons c rest =>
        have hc1 := planSize_pos c
        have hr1 := listSize_pos rest
        simp only [listSize] at h1 h2
        simp only [parseChildPlanListF]
        rw [ihP f f' r c t0 tid sid i (by omega) (by omega) (by omega)]
        cases hc : parseChildPlanF f' r c t0 tid sid i with
        | none => rfl
        | some cres =>
          simp only [Option.some_bind]
          rw [ihL f f' r rest t0 tid sid
            (if cres.1 < acc then cres.1 else acc) cres.2.2 (by omega) (by omega) (by omega)]

/-- The fuel `parseExecutionPlanT` uses is canonical: any fuel at least
`planSize plan` computes the same result. -/
theorem parseChildPlanF_fuel_irrel (fuel : ℕ) (r : RandStream) (plan : JValue) (t0 : ℤ)
    (tid pid : List ℕ) (i : ℕ) (h : planSize plan ≤ fuel) :
    parseChildPlanF fuel r plan t0 tid pid i =
      parseChildPlanF (planSize plan) r plan t0 tid pid i :=
  (fuel_irrel_aux fuel).1 fuel (planSize plan) r plan t0 tid pid i (le_refl _) h (le_refl _)

/-- C1: the reconciled span start the converter returns for a plan node is
exactly the specification's bottom-up post-order minimum of the node's own
candidate start (`T0 + actualStartupTimeMs`) and all of its children's
reconciled starts, as computed by `reconciledStartF`; the witness instantiates
the spec's scenario (own startup 5 ms, child reconciled to 2 ms, final start
2 ms). -/
theorem claim_C1_reconciled_start (fuel : ℕ) (r : RandStream) (plan : JValue) (t0 : ℤ)
    (tid pid : List ℕ) (i : ℕ)
    (h : (parseChildPlanF fuel r plan t0 tid pid i).isSome = true) :
    reconciledStartF fuel t0 plan =
      (parseChildPlanF fuel r plan t0 tid pid i).map (fun out => out.1) := by
  obtain ⟨out, hout⟩ := Option.isSome_iff_exists.mp h
  obtain ⟨st, sp, i2⟩ := out
  rw [hout, Option.map_some']
  exact ((masterTime fuel).1 _ _ _ _ _ _ _ _ _ hout).1

theorem claim_C1_reconciled_start_witness :
    reconciledStartF (planSize scenarioPlan) 0 scenarioPlan =
      (parseChildPlanF (planSize scenarioPlan) idStream scenarioPlan 0 [] [] 3).map
        (fun out => out.1) ∧
    reconciledStartF (planSize scenarioPlan) 0 scenarioPlan = some 2000000 :=
  ⟨claim_C1_reconciled_start _ _ _ _ _ _ _ (by decide), by decide⟩

/-- C2 (amended): every plan-node span has `endTime ≠ startTime` — an exact
coincidence is bumped by one nanosecond — but strict `endTime > startTime`
does not hold for every span: the synthesized root span of a zero-duration
document has `endTime = startTime` (see `claim_C2_counterexample`), and a node
whose candidate end precedes its reconciled start keeps the earlier end. -/
theorem claim_C2_node_end_ne_start (fuel : ℕ) (r : RandStream) (plan : JValue) (t0 : ℤ)
    (tid pid : List ℕ) (i : ℕ) (st : ℤ) (sp : List Span) (i2 : ℕ)
    (h : parseChildPlanF fuel r plan t0 tid pid i = some (st, sp, i2)) :
    ∀ s ∈ sp, s.endTime ≠ s.startTime :=
  ((masterTime fuel).1 _ _ _ _ _ _ _ _ _ h).2.2

theorem claim_C2_node_end_ne_start_witness :
    scenOwnSpan.endTime ≠ scenOwnSpan.startTime :=
  claim_C2_node_end_ne_start (planSize scenarioPlan) idStream scenarioPlan 0 [] [] 3
    2000000 [scenChildSpan, scenOwnSpan] 5 (by decide) scenOwnSpan (by decide)

/-- C2 counterexample: the document of spec §6 with `duration = 0` yields a
synthesized root span whose `endTime` equals its `startTime` — the claimed
strict `endTime > startTime` fails on an emitted span. -/
theorem claim_C2_counterexample :
    parseExecutionPlan idStream zeroDurationDoc = some [exNodeSpan, zdRootSpan] ∧
    zdRootSpan.endTime = zdRootSpan.startTime := by decide

/-- C3: a document whose required `username` field is missing makes the model
of `parseExecutionPlan` panic (`none`, the unchecked type assertion
`plan["username"].(string)` on a nil interface), while the intact sibling
document converts fully. In the Go code this panic is not recovered anywhere
in `ProcessExecutionPlan`, so the whole tick — not just the one record — is
aborted, contradicting the claimed skip-and-continue error handling. -/
theorem claim_C3_missing_field_panics :
    parseExecutionPlan idStream noUsernameDoc = none ∧
    parseExecutionPlan idStream exDoc = some [exNodeSpan, exRootSpan] := by decide

/-- C5 (amended): a plan node whose candidate end `T0 + actualTotalTimeMs`
equals its reconciled final start — in particular any childless node with
equal startup and total times — produces a span ending exactly one nanosecond
after its start. The claim's `regardless of whether the node has children`
fails: children can pull the final start below the candidate start, and then
no bump happens (see `claim_C5_counterexample`). -/
theorem claim_C5_equal_candidate_bumped (fuel : ℕ) (r : RandStream) (pm : JFields)
    (t0 : ℤ) (tid pid : List ℕ) (i : ℕ) (st : ℤ) (sp : List Span) (i2 : ℕ) (tot : ℚ)
    (h : parseChildPlanF fuel r (JValue.obj pm) t0 tid pid i = some (st, sp, i2))
    (htot : asNum (lookupField pm "Actual Total Time") = some tot)
    (heq : t0 + msDuration tot = st) :
    (sp.getLast?).map Span.endTime = some (st + 1) ∧
    (sp.getLast?).map Span.startTime = some st := by
  obtain ⟨f', pm', nt, su, cst, csp, ci, tot', attrs, hf, hpm, h1, h2, h3, h4, h5, hout⟩ :=
    parseChildPlanF_some_inv h
  injection hpm with hpm
  subst hpm
  rw [htot] at h4
  injection h4 with h4
  subst h4
  simp only [Prod.mk.injEq] at hout
  obtain ⟨rfl, rfl, rfl⟩ := hout
  rw [List.getLast?_concat]
  simp [nodeSpanOf, heq]

theorem claim_C5_equal_candidate_bumped_witness :
    ((([leafEqualSpan] : List Span).getLast?).map Span.endTime = some (5000000 + 1) ∧
     (([leafEqualSpan] : List Span).getLast?).map Span.startTime = some 5000000) ∧
    parseChildPlanF (planSize (JValue.obj leafEqualFields)) idStream
      (JValue.obj leafEqualFields) 0 [] [] 3 = some (5000000, [leafEqualSpan], 4) :=
  ⟨claim_C5_equal_candidate_bumped (planSize (JValue.obj leafEqualFields)) idStream
    leafEqualFields 0 [] [] 3 5000000 [leafEqualSpan] 4 5 (by decide) (by decide) (by decide),
   by decide⟩

/-- C5 counterexample: a node with `Actual Startup Time = Actual Total Time
= 5 ms` and a child reconciled to 2 ms emits its own span with `endTime`
5 ms and `startTime` 2 ms — three milliseconds apart, not one nanosecond —
refuting the claim's `regardless of whether the node has children`. -/
theorem claim_C5_counterexample :
    parseChildPlanF (planSize (JValue.obj equalTimesFields)) idStream
      (JValue.obj equalTimesFields) 0 [] [] 3 =
      some (2000000, [scenChildSpan, etOwnSpan], 5) ∧
    asNum (lookupField equalTimesFields "Actual Startup Time") =
      asNum (lookupField equalTimesFields "Actual Total Time") ∧
    etOwnSpan.endTime ≠ etOwnSpan.startTime + 1 := by decide

/-- C10: `PushOcProtoSpansToOCTraceExporter` dereferences `goodSpans[0]` after
the translation loop unconditionally, so it completes exactly when at least
one span of the batch translates successfully; an empty batch, or one whose
every span fails translation, faults on the out-of-range index. -/
theorem claim_C10_push_requires_good_span {α β : Type} (translate : α → Option β)
    (spans : List α) :
    (PushOcProtoSpansToOCTraceExporter translate spans = none ↔
      ∀ s ∈ spans, translate s = none) ∧
    PushOcProtoSpansToOCTraceExporter translate ([] : List α) = none := by
  constructor
  · unfold PushOcProtoSpansToOCTraceExporter
    cases hf : spans.filter (fun s => (translate s).isSome) with
    | nil =>
      simp only [true_iff]
      intro s hs
      have := List.filter_eq_nil_iff.mp hf s hs
      simpa [Option.not_isSome_iff_eq_none] using this
    | cons a rest =>
      simp only [reduceCtorEq, false_iff]
      intro hall
      have ha : a ∈ spans.filter (fun s => (translate s).isSome) := by
        rw [hf]
        exact List.mem_cons_self a rest
      have := List.of_mem_filter ha
      rw [hall a (List.mem_of_mem_filter ha)] at this
      simp at this
  · rfl

/-- C6: a successfully converted document yields the post-order name sequence
of its plan tree (every node's span strictly after all of its descendants'
spans) followed by the synthesized root span, which is last and parentless;
the batch has one span per plan node plus one root span. -/
theorem claim_C6_output_shape (r : RandStream) (pm : JFields) (batch : List Span)
    (iEnd : ℕ) (h : parseExecutionPlanT r (JValue.obj pm) = some (batch, iEnd)) :
    postNamesF (planSize (lookupField pm "Plan")) (lookupField pm "Plan") =
      some (List.map Span.name batch.dropLast) ∧
    List.map Span.name batch = List.map Span.name batch.dropLast ++ ["CloudSQLQuery"] ∧
    batch.length = batch.dropLast.length + 1 ∧
    (batch.getLast?).map Span.parentSpanId = some none := by
  obtain ⟨pm', ts, dur, attrs, st, sp, hpm, h1, h2, h3, h4, hb⟩ := parseExecutionPlanT_some_inv h
  injection hpm with hpm
  subst hpm
  subst hb
  rw [List.dropLast_concat]
  refine ⟨((masterShape _).1 _ _ _ _ _ _ _ _ _ h4).2.1, ?_, ?_, ?_⟩
  · simp [rootSpanOf]
  · simp
  · rw [List.getLast?_concat]
    simp [rootSpanOf]

theorem claim_C6_output_shape_witness :
    postNamesF (planSize (lookupField exFields "Plan")) (lookupField exFields "Plan") =
      some (List.map Span.name ([exNodeSpan, exRootSpan] : List Span).dropLast) ∧
    List.map Span.name ([exNodeSpan, exRootSpan] : List Span) =
      List.map Span.name ([exNodeSpan, exRootSpan] : List Span).dropLast ++ ["CloudSQLQuery"] ∧
    ([exNodeSpan, exRootSpan] : List Span).length =
      ([exNodeSpan, exRootSpan] : List Span).dropLast.length + 1 ∧
    (([exNodeSpan, exRootSpan] : List Span).getLast?).map Span.parentSpanId = some none :=
  claim_C6_output_shape idStream exFields [exNodeSpan, exRootSpan] 4 (by decide)

/-- C7 (amended): all spans of one document share the single 16-byte trace id
drawn for the document, and their 8-byte span ids are the draws of pairwise
distinct draw indices — hence pairwise distinct whenever the random source
does not repeat a 64-bit value within the document's draw window. The
unconditional claim fails for a colliding source (`claim_C7_counterexample`),
matching the spec's own `no uniqueness guarantee beyond statistical collision
avoidance`. -/
theorem claim_C7_trace_identity (r : RandStream) (pm : JFields) (batch : List Span)
    (iEnd : ℕ) (h : parseExecutionPlanT r (JValue.obj pm) = some (batch, iEnd))
    (hr : ∀ j, j < iEnd → ∀ k, k < iEnd → putUint64LE (r j) = putUint64LE (r k) → j = k) :
    (∀ s ∈ batch, s.traceId = putUint64LE (r 0) ++ putUint64LE (r 1) ∧
      s.traceId.length = 16 ∧ s.spanId.length = 8) ∧
    (batch.map Span.spanId).Nodup := by
  obtain ⟨pm', ts, dur, attrs, st, sp, hpm, h1, h2, h3, h4, hb⟩ := parseExecutionPlanT_some_inv h
  injection hpm with hpm
  subst hpm
  subst hb
  obtain ⟨_, _, htid, _⟩ := (masterShape _).1 _ _ _ _ _ _ _ _ _ h4
  obtain ⟨h3lt, idxs, hmap, hnd, hbound⟩ := (masterIdx _).1 _ _ _ _ _ _ _ _ _ h4
  constructor
  · intro s hs
    rcases List.mem_append.mp hs with hsp | hroot
    · refine ⟨htid s hsp, ?_, ?_⟩
      · rw [htid s hsp]
        simp [putUint64LE]
      · have hm : s.spanId ∈ sp.map Span.spanId := List.mem_map_of_mem _ hsp
        rw [hmap] at hm
        obtain ⟨j, hj, hfj⟩ := List.mem_map.mp hm
        rw [← hfj]
        exact putUint64LE_length _
    · simp only [List.mem_singleton] at hroot
      subst hroot
      refine ⟨by simp [rootSpanOf, generateTraceId], ?_, ?_⟩
      · simp [rootSpanOf, generateTraceId, putUint64LE]
      · simp [rootSpanOf, generateSpanId, putUint64LE]
  · rw [List.map_append, hmap]
    have : (List.map Span.spanId [rootSpanOf r ts dur attrs]) =
        List.map (fun j => putUint64LE (r j)) [2] := by
      simp [rootSpanOf, generateSpanId]
    rw [this, ← List.map_append]
    refine List.Nodup.map_on ?_ ?_
    · intro x hx y hy hxy
      rcases List.mem_append.mp hx with hx' | hx' <;>
        rcases List.mem_append.mp hy with hy' | hy'
      · exact hr x (hbound x hx').2 y (hbound y hy').2 hxy
      · simp only [List.mem_singleton] at hy'
        subst hy'
        exact hr x (hbound x hx').2 2 (by omega) hxy
      · simp only [List.mem_singleton] at hx'
        subst hx'
        exact hr 2 (by omega) y (hbound y hy').2 hxy
      · simp only [List.mem_singleton] at hx' hy'
        omega
    · rw [List.nodup_append]
      refine ⟨hnd, List.nodup_singleton 2, ?_⟩
      intro a ha ha2
      simp only [List.mem_singleton] at ha2
      subst ha2
      have := (hbound 2 ha).1
      omega

theorem claim_C7_trace_identity_witness :
    exNodeSpan.traceId = putUint64LE (idStream 0) ++ putUint64LE (idStream 1) ∧
    (([exNodeSpan, exRootSpan] : List Span).map Span.spanId).Nodup :=
  ⟨((claim_C7_trace_identity idStream exFields [exNodeSpan, exRootSpan] 4 (by decide)
      (by decide)).1 exNodeSpan (by decide)).1,
   (claim_C7_trace_identity idStream exFields [exNodeSpan, exRootSpan] 4 (by decide)
      (by decide)).2⟩

/-- C7 counterexample: under a random source that repeats (every draw `0`),
the two spans of the §6 example document receive the same span id — the
spanIds of one document are not pairwise distinct for every input document. -/
theorem claim_C7_counterexample :
    parseExecutionPlan zeroStream exDoc = some [exNodeSpan0, exRootSpan0] ∧
    exNodeSpan0.spanId = exRootSpan0.spanId ∧ exNodeSpan0 ≠ exRootSpan0 := by decide

/-- C8: the synthesized root span carries exactly the document attributes
`query`, `username`, `session_username` (strings), `connection_id` (integer),
`database_name` (string), as `documentAttributes` extracts them; every node
span's attribute list is the required integer `Rows Fetched` followed by
`Operation` and `Table Name` exactly when present, and the top-level node
span's attributes are exactly `nodeAttributes` of its object; string and
integer are the only attribute value forms (`AttrValue`). -/
theorem claim_C8_attributes (r : RandStream) (pm : JFields) (batch : List Span)
    (iEnd : ℕ) (h : parseExecutionPlanT r (JValue.obj pm) = some (batch, iEnd)) :
    (batch.getLast?).map Span.attributes = documentAttributes pm ∧
    (∀ s ∈ batch.dropLast, NodeAttrShape s) ∧
    (∀ npm, lookupField pm "Plan" = JValue.obj npm →
      ((batch.dropLast).getLast?).map Span.attributes = nodeAttributes npm) := by
  obtain ⟨pm', ts, dur, attrs, st, sp, hpm, h1, h2, h3, h4, hb⟩ := parseExecutionPlanT_some_inv h
  injection hpm with hpm
  subst hpm
  subst hb
  rw [List.dropLast_concat]
  obtain ⟨⟨pmc, ntc, totc, attrsc, cspc, hplanc, hntc, hnac, htotc, hspc⟩, _, _, hshape⟩ :=
    (masterShape _).1 _ _ _ _ _ _ _ _ _ h4
  refine ⟨?_, hshape, ?_⟩
  · rw [List.getLast?_concat]
    simp only [rootSpanOf, Option.map_some']
    exact h3.symm
  · intro npm hnpm
    rw [hplanc] at hnpm
    injection hnpm with hnpm
    subst hnpm
    rw [hspc, List.getLast?_concat]
    simp only [nodeSpanOf, Option.map_some']
    exact hnac.symm

theorem claim_C8_attributes_witness :
    (([exNodeSpan, exRootSpan] : List Span).getLast?).map Span.attributes =
      documentAttributes exFields ∧
    (∀ npm, lookupField exFields "Plan" = JValue.obj npm →
      ((([exNodeSpan, exRootSpan] : List Span).dropLast).getLast?).map Span.attributes =
        nodeAttributes npm) :=
  ⟨(claim_C8_attributes idStream exFields [exNodeSpan, exRootSpan] 4 (by decide)).1,
   (claim_C8_attributes idStream exFields [exNodeSpan, exRootSpan] 4 (by decide)).2.2⟩

/-- C9: the synthesized root span has no parent; the span of the top-level
plan node has the root span's id as parent; every node span carries a parent
id that is the span id of some span of the same batch; and, at every level of
the recursion, a node's own span carries exactly the span id its immediate
ancestor passed in. -/
theorem claim_C9_parent_links (r : RandStream) (pm : JFields) (batch : List Span)
    (iEnd : ℕ) (h : parseExecutionPlanT r (JValue.obj pm) = some (batch, iEnd)) :
    (batch.getLast?).map Span.parentSpanId = some none ∧
    ((batch.dropLast).getLast?).map Span.parentSpanId = some (some (putUint64LE (r 2))) ∧
    (batch.getLast?).map Span.spanId = some (putUint64LE (r 2)) ∧
    (∀ s ∈ batch.dropLast, ∃ p, s.parentSpanId = some p ∧ ∃ s' ∈ batch, s'.spanId = p) ∧
    (∀ fuel plan t0 tid pid i st sp i2,
      parseChildPlanF fuel r plan t0 tid pid i = some (st, sp, i2) →
      (sp.getLast?).map Span.parentSpanId = some (some pid)) := by
  obtain ⟨pm', ts, dur, attrs, st, sp, hpm, h1, h2, h3, h4, hb⟩ := parseExecutionPlanT_some_inv h
  injection hpm with hpm
  subst hpm
  subst hb
  rw [List.dropLast_concat]
  obtain ⟨⟨pmc, ntc, totc, attrsc, cspc, hplanc, hntc, hnac, htotc, hspc⟩, _, _, _⟩ :=
    (masterShape _).1 _ _ _ _ _ _ _ _ _ h4
  have hptr := (masterPtr _).1 _ _ _ _ _ _ _ _ _ h4
  refine ⟨?_, ?_, ?_, ?_, ?_⟩
  · rw [List.getLast?_concat]
    simp [rootSpanOf]
  · rw [hspc, List.getLast?_concat]
    simp [nodeSpanOf]
  · rw [List.getLast?_concat]
    simp [rootSpanOf, generateSpanId]
  · intro s hs
    rcases hptr s hs with hpar | ⟨s', hs', hpar, _⟩
    · refine ⟨putUint64LE (r 2), hpar, rootSpanOf r ts dur attrs, ?_, ?_⟩
      · exact List.mem_append.mpr (Or.inr (List.mem_singleton.mpr rfl))
      · simp [rootSpanOf, generateSpanId]
    · exact ⟨s'.spanId, hpar, s', List.mem_append.mpr (Or.inl hs'), rfl⟩
  · intro fuel plan t0 tid pid i st' sp' i2' h'
    obtain ⟨⟨pmc', ntc', totc', attrsc', cspc', _, _, _, _, hspc'⟩, _, _, _⟩ :=
      (masterShape _).1 _ _ _ _ _ _ _ _ _ h'
    rw [hspc', List.getLast?_concat]
    simp [nodeSpanOf]

theorem claim_C9_parent_links_witness :
    (([exNodeSpan, exRootSpan] : List Span).getLast?).map Span.parentSpanId = some none ∧
    ((([exNodeSpan, exRootSpan] : List Span).dropLast).getLast?).map Span.parentSpanId =
      some (some (putUint64LE (idStream 2))) ∧
    (([exNodeSpan, exRootSpan] : List Span).getLast?).map Span.spanId =
      some (putUint64LE (idStream 2)) :=
  ⟨(claim_C9_parent_links idStream exFields [exNodeSpan, exRootSpan] 4 (by decide)).1,
   (claim_C9_parent_links idStream exFields [exNodeSpan, exRootSpan] 4 (by decide)).2.1,
   (claim_C9_parent_links idStream exFields [exNodeSpan, exRootSpan] 4 (by decide)).2.2.1⟩

/-- C4 (amended): with span ids drawn without repetition inside the document's
draw window, `parent.startTime ≤ child.startTime` holds for every pair whose
parent is a plan-node span, unconditionally in the document's timing fields;
the pair formed by the synthesized root span and the top-level node span
additionally requires every `Actual Startup Time` in the plan to be
nonnegative — a negative offset pulls the node span before `T0` while the
root span stays at `T0` (`claim_C4_counterexample`). -/
theorem claim_C4_parent_child_start (r : RandStream) (pm : JFields) (batch : List Span)
    (iEnd : ℕ) (h : parseExecutionPlanT r (JValue.obj pm) = some (batch, iEnd))
    (hr : ∀ j, j < iEnd → ∀ k, k < iEnd → putUint64LE (r j) = putUint64LE (r k) → j = k) :
    (∀ s ∈ batch, ∀ s' ∈ batch, s'.parentSpanId = some s.spanId →
      s.parentSpanId ≠ none → s.startTime ≤ s'.startTime) ∧
    (startupsNonneg (lookupField pm "Plan") = true →
      ∀ s ∈ batch, ∀ s' ∈ batch, s'.parentSpanId = some s.spanId →
        s.startTime ≤ s'.startTime) := by
  obtain ⟨pm', ts, dur, attrs, st, sp, hpm, h1, h2, h3, h4, hb⟩ := parseExecutionPlanT_some_inv h
  injection hpm with hpm
  subst hpm
  subst hb
  obtain ⟨_, hstlb, _⟩ := (masterTime _).1 _ _ _ _ _ _ _ _ _ h4
  have hptr := (masterPtr _).1 _ _ _ _ _ _ _ _ _ h4
  obtain ⟨h3lt, idxs, hmap, hnd, hbound⟩ := (masterIdx _).1 _ _ _ _ _ _ _ _ _ h4
  have hmem_idx : ∀ s ∈ sp, ∃ j ∈ idxs, s.spanId = putUint64LE (r j) := by
    intro s hs
    have hm : s.spanId ∈ sp.map Span.spanId := List.mem_map_of_mem _ hs
    rw [hmap] at hm
    obtain ⟨j, hj, hfj⟩ := List.mem_map.mp hm
    exact ⟨j, hj, hfj.symm⟩
  have hids_nodup : (sp.map Span.spanId).Nodup := by
    rw [hmap]
    refine List.Nodup.map_on ?_ hnd
    intro x hx y hy hxy
    exact hr x (hbound x hx).2 y (hbound y hy).2 hxy
  have hmain : ∀ s ∈ sp, ∀ s' ∈ sp, s'.parentSpanId = some s.spanId →
      s.startTime ≤ s'.startTime := by
    intro s hs s' hs' hps
    rcases hptr s' hs' with hpar | ⟨s2, hs2, hpar2, hle⟩
    · rw [hps] at hpar
      injection hpar with hpar
      obtain ⟨j, hj, hsj⟩ := hmem_idx s hs
      have hjb := hbound j hj
      have hj2 : j = 2 := hr j hjb.2 2 (by omega) (by rw [← hsj, hpar])
      omega
    · rw [hps] at hpar2
      injection hpar2 with he
      have hse : s = s2 := List.inj_on_of_nodup_map hids_nodup hs hs2 he
      rw [hse]
      exact hle
  constructor
  · intro s hs s' hs' hps hsome
    rcases List.mem_append.mp hs with hsp | hroot
    · rcases List.mem_append.mp hs' with hsp' | hroot'
      · exact hmain s hsp s' hsp' hps
      · simp only [List.mem_singleton] at hroot'
        subst hroot'
        simp [rootSpanOf] at hps
    · simp only [List.mem_singleton] at hroot
      subst hroot
      simp [rootSpanOf] at hsome
  · intro hnn s hs s' hs' hps
    rcases List.mem_append.mp hs with hsp | hroot
    · rcases List.mem_append.mp hs' with hsp' | hroot'
      · exact hmain s hsp s' hsp' hps
      · simp only [List.mem_singleton] at hroot'
        subst hroot'
        simp [rootSpanOf] at hps
    · simp only [List.mem_singleton] at hroot
      subst hroot
      rcases List.mem_append.mp hs' with hsp' | hroot'
      · have ht0 := (masterNonneg _).1 _ _ _ _ _ _ _ _ _ hnn h4
        have hs'lb := hstlb s' hsp'
        simp only [rootSpanOf]
        omega
      · simp only [List.mem_singleton] at hroot'
        subst hroot'
        simp [rootSpanOf] at hps

theorem claim_C4_parent_child_start_witness :
    exRootSpan.startTime ≤ exNodeSpan.startTime :=
  (claim_C4_parent_child_start idStream exFields [exNodeSpan, exRootSpan] 4 (by decide)
      (by decide)).2 (by decide) exRootSpan (by decide) exNodeSpan (by decide) (by decide)

/-- C4 counterexample: with `Actual Startup Time = -5` the plan node's span
starts 5 ms before the synthesized root span, its parent — the claimed
`parent.startTime ≤ child.startTime` fails for the root/top-node pair on this
input document. -/
theorem claim_C4_counterexample :
    parseExecutionPlan idStream negStartupDoc = some [negNodeSpan, exRootSpan] ∧
    negNodeSpan.parentSpanId = some exRootSpan.spanId ∧
    negNodeSpan.startTime < exRootSpan.startTime := by decide

end PgReceiver
